import Mathlib

/-!
A shallow embedding of the WebSocket write path (`write.go`) of the
`btwiuse/websocket` library.

The embedding covers `Conn.write`, `Conn.Write`, `Conn.writer`,
`msgWriter.reset`, `msgWriter.Write`, `msgWriter.write`, `msgWriter.Close`,
`msgWriter.ensureFlate`, `msgWriter.flateContextTakeover`,
`Conn.writeControl`, `Conn.writeFrame` and `Conn.writeFramePayload`.
Components the write path depends on whose sources live elsewhere in the
repository (the sliding window, the trim writer, the `mask` function, the
context-aware mutex, the `c.flate()` accessor) are modelled from the
specification and carry a doc comment saying so.

Side effects are made explicit: a connection state carries an event trace
(`Ev`) recording every frame handed to the wire, every stateless DEFLATE
invocation, and every sliding-window reset.  Fallible operations return the
updated state together with an optional error, mirroring Go's
`(n, err)` convention where state mutations persist even when an error is
returned.
-/

namespace WS

/-- WebSocket opcodes (RFC 6455), as numbered in the repository. -/
def opContinuation : Nat := 0

/-- Text-message opcode. -/
def opText : Nat := 1

/-- Binary-message opcode. -/
def opBinary : Nat := 2

/-- Close control opcode. -/
def opClose : Nat := 8

/-- Ping control opcode. -/
def opPing : Nat := 9

/-- Pong control opcode. -/
def opPong : Nat := 10

/-- Modelled from the spec: a cancellation context carries an optional
deadline (an instant, in milliseconds); `context.Background()` has none.
The `context` package is external to the repository. -/
structure Ctx where
  deadline : Option Nat
  deriving Repr, DecidableEq, Inhabited

/-- Modelled from the spec: `context.WithTimeout(ctx, d)` at instant `now`
produces a context whose deadline is `now + d`, capped by any earlier
deadline of the parent. -/
def withTimeout (now d : Nat) (ctx : Ctx) : Ctx :=
  match ctx.deadline with
  | none => ⟨some (now + d)⟩
  | some t => ⟨some (min t (now + d))⟩

/-- Negotiated permessage-deflate options (the connection's `copts` record,
spec §3 Options). -/
structure Copts where
  clientNoContextTakeover : Bool
  serverNoContextTakeover : Bool
  deriving Repr, DecidableEq, Inhabited

/-- Static configuration of a connection.  `client` is the role flag,
`flateEnabled` models the `c.flate()` accessor (spec §3, `flate_enabled`),
`flateThreshold` is `c.flateThreshold`.  `deflate` abstracts the external
`flate.StatelessDeflate` encoder of the `klauspost/compress` dependency:
given the input bytes, the final-block flag and the preset dictionary it
yields the bytes of the emitted DEFLATE block. -/
structure ConnCfg where
  client : Bool
  flateEnabled : Bool
  flateThreshold : Nat
  copts : Copts
  deflate : List Nat → Bool → List Nat → List Nat

/-- Modelled from the spec: the sliding window (§4.7).  `buf = none` means
not initialised (memory released); `init` is lazy, `write` appends with
eviction so that the last `min(total, winCap)` bytes are retained, `close`
releases the memory. -/
structure SlidingWindow where
  winCap : Nat
  buf : Option (List Nat)
  deriving Repr, DecidableEq, Inhabited

/-- Lazy initialisation of the sliding window with capacity `n`. -/
def SlidingWindow.init (sw : SlidingWindow) (n : Nat) : SlidingWindow :=
  match sw.buf with
  | some _ => sw
  | none => ⟨n, some []⟩

/-- The currently held bytes, as handed to DEFLATE as preset dictionary. -/
def SlidingWindow.view (sw : SlidingWindow) : List Nat := sw.buf.getD []

/-- Append with eviction of the oldest bytes past capacity. -/
def SlidingWindow.write (sw : SlidingWindow) (p : List Nat) : SlidingWindow :=
  match sw.buf with
  | none => sw
  | some b =>
    let all := b ++ p
    ⟨sw.winCap, some (all.drop (all.length - sw.winCap))⟩

/-- Release the window's memory. -/
def SlidingWindow.close (_ : SlidingWindow) : SlidingWindow := ⟨0, none⟩

/-- A frame as assembled by `Conn.writeFrame` (write.go lines 240-262).
`flateArg` records the `flate` parameter the frame was emitted with (the
writer's compression flag), `maskKey` the four key bytes drawn for a client
frame, and `deadline` the deadline of the context sent to the write-timeout
mailbox for this frame. -/
structure Frame where
  fin : Bool
  rsv1 : Bool
  opcode : Nat
  masked : Bool
  maskKey : List Nat
  flateArg : Bool
  payload : List Nat
  deadline : Option Nat
  deriving Repr, DecidableEq, Inhabited

/-- Observable events of the write path, in emission order. -/
inductive Ev where
  | frame (f : Frame)
  | deflateCall (isFinal : Bool) (input : List Nat) (dict : List Nat)
  | dictReset
  deriving Repr, DecidableEq

/-- The `msgWriter` state (write.go lines 51-64).  `trimAttached` models
`trimWriter != nil`, `trimTail` the trim writer's withheld tail. -/
structure MsgWriter where
  ctx : Ctx
  opcode : Nat
  closed : Bool
  flate : Bool
  trimAttached : Bool
  trimTail : List Nat
  dict : SlidingWindow
  deriving Repr, DecidableEq, Inhabited

/-- Errors of the write path.  `useClosedWriter` is the
"cannot use closed writer" error; `connClosed` carries the connection's
original close cause (`c.closeErr`); `ioErr` an underlying sink error;
`wouldBlock` models a context-aware lock acquisition that can never
succeed because the lock is held. -/
inductive WErr where
  | useClosedWriter
  | connClosed (cause : String)
  | ioErr (msg : String)
  | wouldBlock
  deriving Repr, DecidableEq

/-- Mutable connection state.  `muLocked` is the writer-ownership lock
(`msgWriter.mu`), `closedFlag`/`closeCause` the close-state record
(`c.closed` / `c.closeErr`), `sinkErr` a pending error of the underlying
buffered writer, `rng` the stream of four-byte mask keys the
cryptographically secure source will yield, `trace` the event trace. -/
structure ConnSt where
  mw : MsgWriter
  muLocked : Bool
  closedFlag : Bool
  closeCause : String
  sinkErr : Option String
  rng : List (List Nat)
  trace : List Ev
  deriving Repr, DecidableEq

/-- Embedding of `Conn.writeFrame` (write.go lines 227-281): fails with the
close cause when the close state is set (the `select` on `c.closed`),
otherwise draws a mask key on a client connection, fails if the sink is
failing, and otherwise emits one frame whose RSV1 bit is set exactly when
`flate` is set and the opcode is text or binary. -/
def writeFrame (c : ConnCfg) (st : ConnSt) (ctx : Ctx) (fin flate : Bool)
    (opc : Nat) (p : List Nat) : ConnSt × Option WErr :=
  if st.closedFlag then (st, some (.connClosed st.closeCause))
  else
    let key := if c.client then st.rng.headD [] else []
    let st1 := if c.client then { st with rng := st.rng.tail } else st
    match st1.sinkErr with
    | some m => (st1, some (.ioErr m))
    | none =>
      let rsv1 := flate && (opc == opText || opc == opBinary)
      let f : Frame := ⟨fin, rsv1, opc, c.client, key, flate, p, ctx.deadline⟩
      ({ st1 with trace := st1.trace ++ [.frame f] }, none)

/-- Embedding of `msgWriter.write` (write.go lines 166-173): emit a
non-final data frame with the current opcode and compression flag; on
success the opcode field flips to continuation. -/
def mwWrite (c : ConnCfg) (st : ConnSt) (p : List Nat) : ConnSt × Option WErr :=
  let r := writeFrame c st st.mw.ctx false st.mw.flate st.mw.opcode p
  match r.2 with
  | some e => (r.1, some e)
  | none => ({ r.1 with mw := { r.1.mw with opcode := opContinuation } }, none)

/-- Modelled from the spec: the trim writer (§4.8), whose downstream sink
is `writerFunc(mw.write)`.  The last four bytes of the cumulative burst are
withheld; nothing is passed downstream when the emitted slice is empty
(§9: no frame is emitted for zero-byte input). -/
def trimWrite (c : ConnCfg) (st : ConnSt) (p : List Nat) : ConnSt × Option WErr :=
  let all := st.mw.trimTail ++ p
  let emit := all.take (all.length - 4)
  let st1 := { st with mw := { st.mw with trimTail := all.drop (all.length - 4) } }
  if emit.isEmpty then (st1, none) else mwWrite c st1 emit

/-- Embedding of `msgWriter.ensureFlate` (write.go lines 74-83): attach the
trim writer if absent, lazily initialise the 8192-byte sliding window, set
the compression-active flag. -/
def ensureFlate (st : ConnSt) : ConnSt :=
  let mw0 := st.mw
  let mw1 := if mw0.trimAttached then mw0
             else { mw0 with trimAttached := true, trimTail := [] }
  { st with mw := { mw1 with dict := mw1.dict.init 8192, flate := true } }

/-- Embedding of `msgWriter.flateContextTakeover` (write.go lines 85-90). -/
def flateContextTakeover (c : ConnCfg) : Bool :=
  if c.client then !c.copts.clientNoContextTakeover
  else !c.copts.serverNoContextTakeover

/-- Embedding of `msgWriter.Write` (write.go lines 139-164): fail on a
closed writer; activate compression when negotiated, the opcode is not yet
continuation and the input reaches the threshold; under compression run a
non-final stateless DEFLATE pass into the trim writer and append the
plaintext to the window (the window is appended to even when the pass
errored, as in the source); otherwise emit one non-final frame. -/
def mwWritePub (c : ConnCfg) (st : ConnSt) (p : List Nat) :
    Nat × ConnSt × Option WErr :=
  if st.mw.closed then (0, st, some .useClosedWriter)
  else
    let st1 := if c.flateEnabled && (!(st.mw.opcode == opContinuation)
                  && decide (c.flateThreshold ≤ p.length))
               then ensureFlate st else st
    if st1.mw.flate then
      let dictView := st1.mw.dict.view
      let out := c.deflate p false dictView
      let st2 := { st1 with trace := st1.trace ++ [.deflateCall false p dictView] }
      let r := trimWrite c st2 out
      let st4 := { r.1 with mw := { r.1.mw with dict := r.1.mw.dict.write p } }
      (p.length, st4, r.2)
    else
      let r := mwWrite c st1 p
      match r.2 with
      | some e => (0, r.1, some e)
      | none => (p.length, r.1, none)

/-- Embedding of `msgWriter.Close` (write.go lines 176-208): fail on a
closed writer; under compression flush a final stateless DEFLATE block
through the trim writer; set the closed flag; emit the FIN frame with an
empty payload; reset the sliding window when context takeover is forbidden;
release the writer-ownership lock only on full success. -/
def mwClose (c : ConnCfg) (st : ConnSt) : ConnSt × Option WErr :=
  if st.mw.closed then (st, some .useClosedWriter)
  else
    let step :=
      if st.mw.flate then
        trimWrite c { st with trace := st.trace ++ [.deflateCall true [] []] }
          (c.deflate [] true [])
      else (st, none)
    match step.2 with
    | some e => (step.1, some e)
    | none =>
      let st2 := { step.1 with mw := { step.1.mw with closed := true } }
      let r := writeFrame c st2 st2.mw.ctx true st2.mw.flate st2.mw.opcode []
      match r.2 with
      | some e => (r.1, some e)
      | none =>
        let st4 := if r.1.mw.flate && !flateContextTakeover c then
                     { r.1 with mw := { r.1.mw with dict := r.1.mw.dict.close },
                                trace := r.1.trace ++ [.dictReset] }
                   else r.1
        ({ st4 with muLocked := false }, none)

/-- Embedding of `msgWriter.reset` (write.go lines 120-136) together with
the modelled context-aware lock (spec §4.6): acquisition fails immediately
with the close cause once the close state is set, and can never succeed
while the lock is held. -/
def mwReset (_c : ConnCfg) (st : ConnSt) (ctx : Ctx) (typ : Nat) :
    ConnSt × Option WErr :=
  if st.closedFlag then (st, some (.connClosed st.closeCause))
  else if st.muLocked then (st, some .wouldBlock)
  else
    let mw1 := { st.mw with
      closed := false, ctx := ctx, opcode := typ, flate := false,
      trimTail := if st.mw.trimAttached then [] else st.mw.trimTail }
    ({ st with muLocked := true, mw := mw1 }, none)

/-- Embedding of `Conn.write` (write.go lines 100-118), the one-shot write:
acquire the writer; without negotiated compression emit a single frame with
FIN=1 and release the lock; with compression delegate to `msgWriter.Write`
followed by `msgWriter.Close`. -/
def connWrite (c : ConnCfg) (st : ConnSt) (ctx : Ctx) (typ : Nat)
    (p : List Nat) : Nat × ConnSt × Option WErr :=
  let r0 := mwReset c st ctx typ
  match r0.2 with
  | some e => (0, r0.1, some e)
  | none =>
    if !c.flateEnabled then
      let r := writeFrame c r0.1 ctx true false r0.1.mw.opcode p
      (if r.2.isNone then p.length else 0, { r.1 with muLocked := false }, r.2)
    else
      let r1 := mwWritePub c r0.1 p
      match r1.2.2 with
      | some e => (r1.1, r1.2.1, some e)
      | none =>
        let r2 := mwClose c r1.2.1
        (r1.1, r2.1, r2.2)

/-- The streaming path taken for a single message: writer begin
(`msgWriter.reset`), one `msgWriter.Write`, then `msgWriter.Close`. -/
def streamSingle (c : ConnCfg) (st : ConnSt) (ctx : Ctx) (typ : Nat)
    (p : List Nat) : Nat × ConnSt × Option WErr :=
  let r0 := mwReset c st ctx typ
  match r0.2 with
  | some e => (0, r0.1, some e)
  | none =>
    let r1 := mwWritePub c r0.1 p
    match r1.2.2 with
    | some e => (r1.1, r1.2.1, some e)
    | none =>
      let r2 := mwClose c r1.2.1
      (r1.1, r2.1, r2.2)

/-- The hard control-frame timeout (5 seconds, in milliseconds). -/
def controlTimeout : Nat := 5000

/-- Embedding of `Conn.writeControl` (write.go lines 215-224): derive a
context capped at five seconds from the caller's and emit a single frame
directly, bypassing the message writer. -/
def writeControl (c : ConnCfg) (st : ConnSt) (now : Nat) (ctx : Ctx)
    (opc : Nat) (p : List Nat) : ConnSt × Option WErr :=
  writeFrame c st (withTimeout now controlTimeout ctx) true false opc p

/-- Run a list of `msgWriter.Write` calls, stopping at the first error as a
caller would. -/
def runWrites (c : ConnCfg) (st : ConnSt) : List (List Nat) → ConnSt × Option WErr
  | [] => (st, none)
  | p :: ps =>
    let r := mwWritePub c st p
    match r.2.2 with
    | some e => (r.2.1, some e)
    | none => runWrites c r.2.1 ps

/-- The frames of a trace, in order. -/
def framesOf (t : List Ev) : List Frame :=
  t.filterMap fun e => match e with | .frame f => some f | _ => none

/-- The message type a peer reads off a frame sequence: the opcode of the
first frame. -/
def assembleType (fs : List Frame) : Option Nat := fs.head?.map Frame.opcode

/-- The payload a peer reassembles from a frame sequence: the concatenation
of the frames' payloads. -/
def assemblePayload (fs : List Frame) : List Nat := (fs.map Frame.payload).flatten

/-- The RSV1 discipline `Conn.writeFrame` follows: the bit equals the
compression flag gated on a text or binary opcode. -/
def rsv1Ok (f : Frame) : Prop :=
  f.rsv1 = (f.flateArg && (f.opcode == opText || f.opcode == opBinary))

/-- Shape of the frame sequence of one message of type `typ`: the first
frame carries `typ`; every later frame carries the continuation opcode
with RSV1 clear; every frame obeys the RSV1 discipline. -/
def msgFrames (typ : Nat) (fs : List Frame) : Prop :=
  (∀ f ∈ fs, rsv1Ok f) ∧
  (∀ f, fs.head? = some f → f.opcode = typ) ∧
  (∀ f ∈ fs.tail, f.opcode = opContinuation ∧ f.rsv1 = false)

/-- Invariant of an open message writer for a message of type `typ`: either
no frame has been emitted yet and the opcode field still holds `typ`, or at
least one frame is out, the opcode field has flipped to continuation, and
the emitted frames have the message shape. -/
def wInv (typ : Nat) (st : ConnSt) : Prop :=
  (st.mw.opcode = typ ∧ framesOf st.trace = []) ∨
  (st.mw.opcode = opContinuation ∧ framesOf st.trace ≠ [] ∧
    msgFrames typ (framesOf st.trace))

/-- The state after writer begin and a list of writes (before close). -/
def midMsg (c : ConnCfg) (st : ConnSt) (ctx : Ctx) (typ : Nat)
    (ps : List (List Nat)) : ConnSt :=
  (runWrites c (mwReset c st ctx typ).1 ps).1

/-- The state after a full message: writer begin, writes, close. -/
def runMsg (c : ConnCfg) (st : ConnSt) (ctx : Ctx) (typ : Nat)
    (ps : List (List Nat)) : ConnSt :=
  (mwClose c (midMsg c st ctx typ ps)).1

/-- Rotation of the four mask-key bytes by one position. -/
def rot1 : List Nat → List Nat
  | [] => []
  | k :: ks => ks ++ [k]

/-- Modelled from the spec: the `mask` operation (§4.1).  Masks the payload
with the key bytes applied cyclically and also yields the next rotation of
the key, so a caller can continue masking a fragmented payload from the
correct offset. -/
def maskSeq (key : List Nat) : List Nat → List Nat × List Nat
  | [] => ([], key)
  | b :: bs =>
    let r := maskSeq (rot1 key) bs
    ((b ^^^ key.headD 0) :: r.1, r.2)

/-- The buffered writer `c.bw` over the wire: capacity, the currently
buffered bytes (the backing slice `c.writeBuf` that the masking step
mutates in place), and the bytes already flushed to the wire. -/
structure BufWriter where
  bcap : Nat
  buf : List Nat
  out : List Nat
  deriving Repr, DecidableEq

/-- Free space in the buffer (`bw.Available()`). -/
def BufWriter.avail (bw : BufWriter) : Nat := bw.bcap - bw.buf.length

/-- Flush the buffered bytes to the wire (`bw.Flush()`). -/
def BufWriter.flush (bw : BufWriter) : BufWriter :=
  { bw with buf := [], out := bw.out ++ bw.buf }

/-- Embedding of the loop of `Conn.writeFramePayload` (write.go lines
290-318): flush when the buffer is full, copy the next chunk into the
buffer, mask in place exactly the bytes just written using the running
key, and continue with the key rotation the mask operation returned.
Fuel-indexed; `p.length` fuel suffices whenever the buffer capacity is
positive. -/
def wfpLoop : Nat → BufWriter → List Nat → List Nat → BufWriter × List Nat
  | _, bw, key, [] => (bw, key)
  | 0, bw, key, _ :: _ => (bw, key)
  | fuel + 1, bw, key, p@(_ :: _) =>
    let bw1 := if bw.avail == 0 then bw.flush else bw
    let j := min p.length bw1.avail
    let m := maskSeq key (p.take j)
    wfpLoop fuel { bw1 with buf := bw1.buf ++ m.1 } m.2 (p.drop j)

/-- Embedding of `Conn.writeFramePayload` for a masked (client) frame:
the chunked, flush-interleaved masking loop. -/
def writeFramePayloadMasked (bw : BufWriter) (key p : List Nat) :
    BufWriter × List Nat :=
  wfpLoop p.length bw key p

/-! ### Concrete fixtures used by the witness theorems -/

/-- A plain (no-compression) server-side configuration. -/
def cfgPlain : ConnCfg :=
  { client := false, flateEnabled := false, flateThreshold := 128,
    copts := ⟨false, false⟩, deflate := fun p _ _ => p ++ [0, 0, 255, 255] }

/-- A compression-enabled server-side configuration with
`server_no_context_takeover` negotiated. -/
def cfgFlate : ConnCfg :=
  { client := false, flateEnabled := true, flateThreshold := 8,
    copts := ⟨false, true⟩, deflate := fun p _ _ => p ++ [0, 0, 255, 255] }

/-- A compression-enabled client-side configuration with context takeover
allowed. -/
def cfgClient : ConnCfg :=
  { client := true, flateEnabled := true, flateThreshold := 8,
    copts := ⟨false, false⟩, deflate := fun p _ _ => p ++ [0, 0, 255, 255] }

/-- The message writer of a fresh connection (`newMsgWriter`). -/
def mwInit : MsgWriter :=
  { ctx := ⟨none⟩, opcode := 0, closed := false, flate := false,
    trimAttached := false, trimTail := [], dict := ⟨0, none⟩ }

/-- A fresh open connection state with a supply of mask keys. -/
def stInit : ConnSt :=
  { mw := mwInit, muLocked := false, closedFlag := false,
    closeCause := "ws closed", sinkErr := none,
    rng := [[1, 2, 3, 4], [5, 6, 7, 8], [9, 10, 11, 12]], trace := [] }

/-- A connection state holding an open compressed text-message writer. -/
def stComp : ConnSt :=
  { stInit with
    muLocked := true,
    mw := { mwInit with
      opcode := opText, flate := true, trimAttached := true,
      dict := ⟨8192, some [3, 4]⟩ } }

/-! ### Helper lemmas -/

/-- On an open connection with a healthy sink, `writeFrame` emits exactly
one frame, fully determined by its arguments. -/
theorem writeFrame_open (c : ConnCfg) (st : ConnSt) (ctx : Ctx)
    (fin flate : Bool) (opc : Nat) (p : List Nat)
    (hc : st.closedFlag = false) (hs : st.sinkErr = none) :
    writeFrame c st ctx fin flate opc p =
      ({ st with rng := if c.client then st.rng.tail else st.rng,
                 trace := st.trace ++ [.frame ⟨fin,
                   flate && (opc == opText || opc == opBinary), opc, c.client,
                   if c.client then st.rng.headD [] else [], flate, p,
                   ctx.deadline⟩] }, none) := by
  cases hcl : c.client <;> simp [writeFrame, hc, hs, hcl]

/-- `writeFrame` never touches the message-writer state, the ownership
lock, the close state or the sink state. -/
theorem writeFrame_frame_only (c : ConnCfg) (st : ConnSt) (ctx : Ctx)
    (fin flate : Bool) (opc : Nat) (p : List Nat) :
    (writeFrame c st ctx fin flate opc p).1.mw = st.mw ∧
    (writeFrame c st ctx fin flate opc p).1.muLocked = st.muLocked ∧
    (writeFrame c st ctx fin flate opc p).1.closedFlag = st.closedFlag ∧
    (writeFrame c st ctx fin flate opc p).1.sinkErr = st.sinkErr := by
  unfold writeFrame
  cases hcf : st.closedFlag <;> cases hcl : c.client <;>
    cases hs : st.sinkErr <;> simp [hcf, hcl, hs]

/-! ### C8 -/

/-- C8: once the connection's close state is set, every frame write fails
immediately with the original close cause as its error, and the state — in
particular the trace of emitted bytes — is unchanged, so no header or
payload bytes of the frame reach the wire. -/
theorem writeFrame_after_close (c : ConnCfg) (st : ConnSt) (ctx : Ctx)
    (fin flate : Bool) (opc : Nat) (p : List Nat)
    (h : st.closedFlag = true) :
    writeFrame c st ctx fin flate opc p = (st, some (.connClosed st.closeCause)) := by
  simp [writeFrame, h]

/-- Witness for C8 at a concrete closed connection. -/
theorem writeFrame_after_close_witness :
    ({ stInit with closedFlag := true } : ConnSt).closedFlag = true ∧
    writeFrame cfgPlain { stInit with closedFlag := true } ⟨none⟩ true false opText [1, 2]
      = ({ stInit with closedFlag := true }, some (.connClosed "ws closed")) := by
  refine ⟨rfl, ?_⟩
  have h := writeFrame_after_close cfgPlain { stInit with closedFlag := true }
    ⟨none⟩ true false opText [1, 2] rfl
  simpa [stInit] using h

/-! ### C5 -/

/-- C5: on a writer whose closed flag is set, a `Write` fails with the
use-closed-writer error and returns the state unchanged (hence emits no
frame), and a `Close` fails with the same error, also leaving the state
unchanged. -/
theorem closed_writer_rejected (c : ConnCfg) (st : ConnSt) (p : List Nat)
    (h : st.mw.closed = true) :
    mwWritePub c st p = (0, st, some .useClosedWriter) ∧
    mwClose c st = (st, some .useClosedWriter) := by
  exact ⟨by simp [mwWritePub, h], by simp [mwClose, h]⟩

/-- Witness for C5 at a concrete closed writer. -/
theorem closed_writer_rejected_witness :
    ({ stInit with mw := { mwInit with closed := true } } : ConnSt).mw.closed = true ∧
    mwWritePub cfgPlain { stInit with mw := { mwInit with closed := true } } [7]
      = (0, { stInit with mw := { mwInit with closed := true } }, some .useClosedWriter) ∧
    mwClose cfgPlain { stInit with mw := { mwInit with closed := true } }
      = ({ stInit with mw := { mwInit with closed := true } }, some .useClosedWriter) := by
  refine ⟨rfl, ?_⟩
  exact closed_writer_rejected cfgPlain _ [7] rfl

/-! ### C7 -/

/-- C7: a control-frame write is a direct frame emission that bypasses the
Message writer — it leaves the writer's opcode, closed flag and compression
state (the whole `msgWriter` record) and the writer-ownership lock
untouched — and it runs under a context whose deadline is at most five
seconds past `now`; on success exactly one final frame carrying that
deadline is emitted. -/
theorem writeControl_bypasses_writer (c : ConnCfg) (st : ConnSt) (now : Nat)
    (ctx : Ctx) (opc : Nat) (p : List Nat) :
    writeControl c st now ctx opc p
      = writeFrame c st (withTimeout now controlTimeout ctx) true false opc p ∧
    (writeControl c st now ctx opc p).1.mw = st.mw ∧
    (writeControl c st now ctx opc p).1.muLocked = st.muLocked ∧
    ∃ d, (withTimeout now controlTimeout ctx).deadline = some d ∧
      d ≤ now + controlTimeout ∧
      (st.closedFlag = false → st.sinkErr = none →
        ∃ f, (writeControl c st now ctx opc p).1.trace = st.trace ++ [.frame f] ∧
          f.fin = true ∧ f.opcode = opc ∧ f.deadline = some d) := by
  refine ⟨rfl, (writeFrame_frame_only c st _ true false opc p).1,
    (writeFrame_frame_only c st _ true false opc p).2.1, ?_⟩
  refine ⟨(withTimeout now controlTimeout ctx).deadline.getD 0, ?_, ?_, ?_⟩
  · cases h : ctx.deadline <;> simp [withTimeout, h]
  · cases h : ctx.deadline <;> simp [withTimeout, h, min_le_right]
  · intro hc hs
    rw [show writeControl c st now ctx opc p
        = writeFrame c st (withTimeout now controlTimeout ctx) true false opc p from rfl,
      writeFrame_open c st _ true false opc p hc hs]
    refine ⟨_, rfl, rfl, rfl, ?_⟩
    cases h : ctx.deadline <;> simp [withTimeout, h]

/-- Witness for C7 at a concrete ping write. -/
theorem writeControl_bypasses_writer_witness :
    writeControl cfgPlain stInit 0 ⟨none⟩ opPing [65]
      = writeFrame cfgPlain stInit (withTimeout 0 controlTimeout ⟨none⟩) true false opPing [65] ∧
    (writeControl cfgPlain stInit 0 ⟨none⟩ opPing [65]).1.mw = stInit.mw ∧
    (writeControl cfgPlain stInit 0 ⟨none⟩ opPing [65]).1.muLocked = stInit.muLocked ∧
    ∃ d, (withTimeout 0 controlTimeout ⟨none⟩).deadline = some d ∧
      d ≤ 0 + controlTimeout ∧
      (stInit.closedFlag = false → stInit.sinkErr = none →
        ∃ f, (writeControl cfgPlain stInit 0 ⟨none⟩ opPing [65]).1.trace
            = stInit.trace ++ [.frame f] ∧
          f.fin = true ∧ f.opcode = opPing ∧ f.deadline = some d) :=
  writeControl_bypasses_writer cfgPlain stInit 0 ⟨none⟩ opPing [65]

/-! ### More helper lemmas: characterisations of the write-path steps -/

/-- `msgWriter.reset` on an open connection with a free writer lock. -/
theorem mwReset_open (c : ConnCfg) (st : ConnSt) (ctx : Ctx) (typ : Nat)
    (hconn : st.closedFlag = false) (hmu : st.muLocked = false) :
    mwReset c st ctx typ = ({ st with
      muLocked := true,
      mw := { st.mw with
        closed := false, ctx := ctx, opcode := typ, flate := false,
        trimTail := if st.mw.trimAttached then [] else st.mw.trimTail } }, none) := by
  simp [mwReset, hconn, hmu]

/-- `msgWriter.write` on an open connection: one non-final frame with the
current opcode and compression flag, then the opcode flips. -/
theorem mwWrite_open (c : ConnCfg) (st : ConnSt) (p : List Nat)
    (hconn : st.closedFlag = false) (hs : st.sinkErr = none) :
    mwWrite c st p = ({ st with
      mw := { st.mw with opcode := opContinuation },
      rng := if c.client then st.rng.tail else st.rng,
      trace := st.trace ++ [.frame ⟨false,
        st.mw.flate && (st.mw.opcode == opText || st.mw.opcode == opBinary),
        st.mw.opcode, c.client, if c.client then st.rng.headD [] else [],
        st.mw.flate, p, st.mw.ctx.deadline⟩] }, none) := by
  unfold mwWrite
  rw [writeFrame_open c st st.mw.ctx false st.mw.flate st.mw.opcode p hconn hs]

/-- `msgWriter.Write` on an open writer that is and stays uncompressed
(input below the threshold): one non-final data frame carrying the input. -/
theorem mwWritePub_plain (c : ConnCfg) (st : ConnSt) (p : List Nat)
    (hcl : st.mw.closed = false) (hfl : st.mw.flate = false)
    (hth : p.length < c.flateThreshold)
    (hconn : st.closedFlag = false) (hs : st.sinkErr = none) :
    mwWritePub c st p = (p.length, { st with
      mw := { st.mw with opcode := opContinuation },
      rng := if c.client then st.rng.tail else st.rng,
      trace := st.trace ++ [.frame ⟨false, false, st.mw.opcode, c.client,
        if c.client then st.rng.headD [] else [], false, p,
        st.mw.ctx.deadline⟩] }, none) := by
  have hth' : decide (c.flateThreshold ≤ p.length) = false := by
    simp [Nat.not_le.mpr hth]
  cases hcli : c.client <;>
    simp [mwWritePub, mwWrite, writeFrame, hcl, hfl, hth', hconn, hs, hcli]

/-- `msgWriter.Close` on an open uncompressed writer: set the closed flag,
emit one empty FIN frame with the current opcode, release the lock. -/
theorem mwClose_plain (c : ConnCfg) (st : ConnSt)
    (hcl : st.mw.closed = false) (hfl : st.mw.flate = false)
    (hconn : st.closedFlag = false) (hs : st.sinkErr = none) :
    mwClose c st = ({ st with
      mw := { st.mw with closed := true },
      muLocked := false,
      rng := if c.client then st.rng.tail else st.rng,
      trace := st.trace ++ [.frame ⟨true, false, st.mw.opcode, c.client,
        if c.client then st.rng.headD [] else [], false, [],
        st.mw.ctx.deadline⟩] }, none) := by
  cases hcli : c.client <;>
    simp [mwClose, writeFrame, hcl, hfl, hconn, hs, hcli]

/-! ### C10 -/

/-- C10: with compression negotiated but the payload below the threshold,
the one-shot `Conn.write` emits exactly two frames: a non-final data frame
with the message-type opcode carrying the whole payload, followed by an
empty FIN frame with the continuation opcode; the call succeeds. -/
theorem oneShot_subThreshold_two_frames (c : ConnCfg) (st : ConnSt)
    (ctx : Ctx) (typ : Nat) (p : List Nat)
    (hen : c.flateEnabled = true) (hth : p.length < c.flateThreshold)
    (hmu : st.muLocked = false) (hconn : st.closedFlag = false)
    (hs : st.sinkErr = none) :
    ∃ k1 k2,
      (connWrite c st ctx typ p).2.1.trace = st.trace ++
        [.frame ⟨false, false, typ, c.client, k1, false, p, ctx.deadline⟩,
         .frame ⟨true, false, opContinuation, c.client, k2, false, [],
           ctx.deadline⟩] ∧
      (connWrite c st ctx typ p).2.2 = none := by
  have hth' : decide (c.flateThreshold ≤ p.length) = false := by
    simp [Nat.not_le.mpr hth]
  refine ⟨if c.client then st.rng.headD [] else [],
    if c.client then st.rng.tail.headD [] else [], ?_⟩
  cases hcli : c.client <;>
    simp [connWrite, mwReset, mwWritePub, mwWrite, mwClose, writeFrame,
      hen, hth', hmu, hconn, hs, hcli]

/-- Witness for C10: a three-byte payload below `cfgFlate`'s threshold of
eight produces a data frame and an empty continuation FIN frame. -/
theorem oneShot_subThreshold_two_frames_witness :
    cfgFlate.flateEnabled = true ∧ ([9, 9, 9] : List Nat).length < cfgFlate.flateThreshold ∧
    stInit.muLocked = false ∧ stInit.closedFlag = false ∧ stInit.sinkErr = none ∧
    ∃ k1 k2,
      (connWrite cfgFlate stInit ⟨none⟩ opBinary [9, 9, 9]).2.1.trace = stInit.trace ++
        [.frame ⟨false, false, opBinary, cfgFlate.client, k1, false, [9, 9, 9], Ctx.deadline ⟨none⟩⟩,
         .frame ⟨true, false, opContinuation, cfgFlate.client, k2, false, [],
           Ctx.deadline ⟨none⟩⟩] ∧
      (connWrite cfgFlate stInit ⟨none⟩ opBinary [9, 9, 9]).2.2 = none :=
  ⟨rfl, by decide, rfl, rfl, rfl,
    oneShot_subThreshold_two_frames cfgFlate stInit ⟨none⟩ opBinary [9, 9, 9]
      rfl (by decide) rfl rfl rfl⟩

/-! ### Field-preservation lemmas for the compression machinery -/

/-- The sliding window's `write` preserves initialisation and capacity. -/
theorem SlidingWindow.write_fields (sw : SlidingWindow) (p : List Nat) :
    (sw.write p).buf.isSome = sw.buf.isSome ∧ (sw.write p).winCap = sw.winCap := by
  cases hb : sw.buf <;> simp [SlidingWindow.write, hb]

/-- `ensureFlate` sets the compression flag, attaches the trim writer and
(lazily) initialises the 8192-byte window, touching nothing else. -/
theorem ensureFlate_fields (st : ConnSt) :
    (ensureFlate st).mw.flate = true ∧
    (ensureFlate st).mw.trimAttached = true ∧
    (ensureFlate st).mw.dict.buf.isSome = true ∧
    (st.mw.dict.buf = none → (ensureFlate st).mw.dict.winCap = 8192) ∧
    (ensureFlate st).mw.opcode = st.mw.opcode ∧
    (ensureFlate st).mw.closed = st.mw.closed ∧
    (ensureFlate st).trace = st.trace := by
  unfold ensureFlate
  cases hta : st.mw.trimAttached <;> cases hb : st.mw.dict.buf <;>
    simp [SlidingWindow.init, hta, hb]

/-- `msgWriter.write` touches only the opcode (on success), the mask-key
stream and the trace. -/
theorem mwWrite_fields (c : ConnCfg) (st : ConnSt) (p : List Nat) :
    (mwWrite c st p).1.mw.flate = st.mw.flate ∧
    (mwWrite c st p).1.mw.trimAttached = st.mw.trimAttached ∧
    (mwWrite c st p).1.mw.dict = st.mw.dict ∧
    (mwWrite c st p).1.mw.closed = st.mw.closed ∧
    (mwWrite c st p).1.muLocked = st.muLocked ∧
    (mwWrite c st p).1.closedFlag = st.closedFlag ∧
    (mwWrite c st p).1.sinkErr = st.sinkErr ∧
    ((mwWrite c st p).2 = none → (mwWrite c st p).1.mw.opcode = opContinuation) ∧
    ((mwWrite c st p).2 = none ∨ (mwWrite c st p).1.mw.opcode = st.mw.opcode) := by
  have h := writeFrame_frame_only c st st.mw.ctx false st.mw.flate st.mw.opcode p
  unfold mwWrite
  dsimp only
  cases he : (writeFrame c st st.mw.ctx false st.mw.flate st.mw.opcode p).2 <;>
    simp [h.1, h.2.1, h.2.2.1, h.2.2.2]

/-- The trim writer leaves the writer's compression state, closed flag,
window and the connection flags untouched. -/
theorem trimWrite_preserves (c : ConnCfg) (st : ConnSt) (q : List Nat) :
    (trimWrite c st q).1.mw.flate = st.mw.flate ∧
    (trimWrite c st q).1.mw.trimAttached = st.mw.trimAttached ∧
    (trimWrite c st q).1.mw.dict = st.mw.dict ∧
    (trimWrite c st q).1.mw.closed = st.mw.closed ∧
    (trimWrite c st q).1.muLocked = st.muLocked ∧
    (trimWrite c st q).1.closedFlag = st.closedFlag ∧
    (trimWrite c st q).1.sinkErr = st.sinkErr := by
  unfold trimWrite
  dsimp only
  by_cases he : ((st.mw.trimTail ++ q).take ((st.mw.trimTail ++ q).length - 4)).isEmpty = true
  · rw [if_pos he]
    exact ⟨rfl, rfl, rfl, rfl, rfl, rfl, rfl⟩
  · rw [if_neg he]
    have h := mwWrite_fields c
      { st with mw := { st.mw with
          trimTail := (st.mw.trimTail ++ q).drop ((st.mw.trimTail ++ q).length - 4) } }
      ((st.mw.trimTail ++ q).take ((st.mw.trimTail ++ q).length - 4))
    exact ⟨h.1, h.2.1, h.2.2.1, h.2.2.2.1, h.2.2.2.2.1, h.2.2.2.2.2.1, h.2.2.2.2.2.2.1⟩

/-! ### C2 -/

/-- Activation: a `Write` whose opcode is not yet continuation and whose
input reaches the threshold, with compression negotiated, turns on the
compression machinery. -/
theorem mwWritePub_activates (c : ConnCfg) (st : ConnSt) (p : List Nat)
    (hen : c.flateEnabled = true) (hcl : st.mw.closed = false)
    (hop : st.mw.opcode ≠ opContinuation) (hth : c.flateThreshold ≤ p.length) :
    (mwWritePub c st p).2.1.mw.flate = true ∧
    (mwWritePub c st p).2.1.mw.trimAttached = true ∧
    (mwWritePub c st p).2.1.mw.dict.buf.isSome = true ∧
    (st.mw.dict.buf = none → (mwWritePub c st p).2.1.mw.dict.winCap = 8192) := by
  have hg : (c.flateEnabled && (!(st.mw.opcode == opContinuation)
      && decide (c.flateThreshold ≤ p.length))) = true := by
    simp [hen, hth, hop]
  have hef := ensureFlate_fields st
  unfold mwWritePub
  rw [if_neg (by simp [hcl]), if_pos hg]
  dsimp only
  rw [if_pos hef.1]
  dsimp only
  refine ⟨?_, ?_, ?_, ?_⟩
  · exact ((trimWrite_preserves c _ _).1).trans hef.1
  · exact ((trimWrite_preserves c _ _).2.1).trans hef.2.1
  · rw [(SlidingWindow.write_fields _ _).1, (trimWrite_preserves c _ _).2.2.1]
    exact hef.2.2.1
  · intro hb
    rw [(SlidingWindow.write_fields _ _).2, (trimWrite_preserves c _ _).2.2.1]
    exact hef.2.2.2.1 hb

/-- A below-threshold `Write` never activates compression, and on success
it flips the opcode to continuation. -/
theorem mwWritePub_below_threshold (c : ConnCfg) (st : ConnSt) (p : List Nat)
    (hcl : st.mw.closed = false) (hfl : st.mw.flate = false)
    (hth : p.length < c.flateThreshold) :
    (mwWritePub c st p).2.1.mw.flate = false ∧
    ((mwWritePub c st p).2.2 = none →
      (mwWritePub c st p).2.1.mw.opcode = opContinuation) := by
  have hg : (c.flateEnabled && (!(st.mw.opcode == opContinuation)
      && decide (c.flateThreshold ≤ p.length))) = false := by
    simp [Nat.not_le.mpr hth]
  have hgneg : ¬ ((c.flateEnabled && (!(st.mw.opcode == opContinuation)
      && decide (c.flateThreshold ≤ p.length))) = true) := by simp [hg]
  have h := mwWrite_fields c st p
  unfold mwWritePub
  rw [if_neg (by simp [hcl]), if_neg hgneg]
  dsimp only
  rw [if_neg (by simp [hfl])]
  cases he : (mwWrite c st p).2 with
  | some e => exact ⟨h.1.trans hfl, fun hk => Option.noConfusion hk⟩
  | none => exact ⟨h.1.trans hfl, fun _ => h.2.2.2.2.2.2.2.1 he⟩

/-- A writer already on continuation frames and uncompressed stays so
across any `msgWriter.Write`. -/
theorem mwWritePub_stays_plain (c : ConnCfg) (st : ConnSt) (p : List Nat)
    (hfl : st.mw.flate = false) (hop : st.mw.opcode = opContinuation) :
    (mwWritePub c st p).2.1.mw.flate = false ∧
    (mwWritePub c st p).2.1.mw.opcode = opContinuation := by
  cases hcl : st.mw.closed with
  | true => simp [mwWritePub, hcl, hfl, hop]
  | false =>
    have hg : (c.flateEnabled && (!(st.mw.opcode == opContinuation)
        && decide (c.flateThreshold ≤ p.length))) = false := by
      simp [hop]
    have hgneg : ¬ ((c.flateEnabled && (!(st.mw.opcode == opContinuation)
        && decide (c.flateThreshold ≤ p.length))) = true) := by simp [hg]
    have h := mwWrite_fields c st p
    unfold mwWritePub
    rw [if_neg (by simp [hcl]), if_neg hgneg]
    dsimp only
    rw [if_neg (by simp [hfl])]
    cases he : (mwWrite c st p).2 with
    | some e =>
      have hco : (mwWrite c st p).1.mw.opcode = st.mw.opcode :=
        (h.2.2.2.2.2.2.2.2).resolve_left (by simp [he])
      exact ⟨h.1.trans hfl, hco.trans hop⟩
    | none =>
      exact ⟨h.1.trans hfl, h.2.2.2.2.2.2.2.1 he⟩

/-- Once uncompressed-and-on-continuation, a whole sequence of writes
stays uncompressed. -/
theorem runWrites_stays_plain (c : ConnCfg) (ps : List (List Nat)) :
    ∀ st : ConnSt, st.mw.flate = false → st.mw.opcode = opContinuation →
      (runWrites c st ps).1.mw.flate = false := by
  induction ps with
  | nil =>
    intro st hfl _
    simpa [runWrites] using hfl
  | cons p ps ih =>
    intro st hfl hop
    have h := mwWritePub_stays_plain c st p hfl hop
    unfold runWrites
    dsimp only
    cases he : (mwWritePub c st p).2.2 with
    | some e => exact h.1
    | none => exact ih _ h.1 h.2

/-- C2: with compression negotiated, a write whose opcode is not yet
continuation and whose input reaches the threshold activates compression —
the flag is set, the trim writer attached, the 8192-byte sliding window
(lazily) initialised; a write below the threshold activates nothing, and
once a message's first write stayed below the threshold (and succeeded,
flipping the opcode to continuation), no later write of that message ever
compresses. -/
theorem flate_activation_spec (c : ConnCfg) (st : ConnSt) (p : List Nat)
    (ps : List (List Nat))
    (hen : c.flateEnabled = true) (hcl : st.mw.closed = false)
    (hop : st.mw.opcode ≠ opContinuation) :
    (c.flateThreshold ≤ p.length →
      (mwWritePub c st p).2.1.mw.flate = true ∧
      (mwWritePub c st p).2.1.mw.trimAttached = true ∧
      (mwWritePub c st p).2.1.mw.dict.buf.isSome = true ∧
      (st.mw.dict.buf = none → (mwWritePub c st p).2.1.mw.dict.winCap = 8192)) ∧
    (p.length < c.flateThreshold → st.mw.flate = false →
      (mwWritePub c st p).2.1.mw.flate = false ∧
      ((mwWritePub c st p).2.2 = none →
        (runWrites c (mwWritePub c st p).2.1 ps).1.mw.flate = false)) := by
  refine ⟨fun hth => mwWritePub_activates c st p hen hcl hop hth, fun hth hfl => ?_⟩
  have h := mwWritePub_below_threshold c st p hcl hfl hth
  exact ⟨h.1, fun he => runWrites_stays_plain c ps _ h.1 (h.2 he)⟩

/-- Witness for C2 at a fresh text-message writer with threshold 8: an
eight-byte first write activates compression; a three-byte first write
does not, and a later large write still does not compress. -/
theorem flate_activation_spec_witness :
    cfgFlate.flateEnabled = true ∧
    (mwReset cfgFlate stInit ⟨none⟩ opText).1.mw.closed = false ∧
    (mwReset cfgFlate stInit ⟨none⟩ opText).1.mw.opcode ≠ opContinuation ∧
    (cfgFlate.flateThreshold ≤ ([1, 2, 3, 4, 5, 6, 7, 8] : List Nat).length →
      (mwWritePub cfgFlate (mwReset cfgFlate stInit ⟨none⟩ opText).1
        [1, 2, 3, 4, 5, 6, 7, 8]).2.1.mw.flate = true ∧
      (mwWritePub cfgFlate (mwReset cfgFlate stInit ⟨none⟩ opText).1
        [1, 2, 3, 4, 5, 6, 7, 8]).2.1.mw.trimAttached = true ∧
      (mwWritePub cfgFlate (mwReset cfgFlate stInit ⟨none⟩ opText).1
        [1, 2, 3, 4, 5, 6, 7, 8]).2.1.mw.dict.buf.isSome = true ∧
      ((mwReset cfgFlate stInit ⟨none⟩ opText).1.mw.dict.buf = none →
        (mwWritePub cfgFlate (mwReset cfgFlate stInit ⟨none⟩ opText).1
          [1, 2, 3, 4, 5, 6, 7, 8]).2.1.mw.dict.winCap = 8192)) ∧
    (([9, 9, 9] : List Nat).length < cfgFlate.flateThreshold →
      (mwReset cfgFlate stInit ⟨none⟩ opText).1.mw.flate = false →
      (mwWritePub cfgFlate (mwReset cfgFlate stInit ⟨none⟩ opText).1
        [9, 9, 9]).2.1.mw.flate = false ∧
      ((mwWritePub cfgFlate (mwReset cfgFlate stInit ⟨none⟩ opText).1 [9, 9, 9]).2.2 = none →
        (runWrites cfgFlate
          (mwWritePub cfgFlate (mwReset cfgFlate stInit ⟨none⟩ opText).1 [9, 9, 9]).2.1
          [[1, 2, 3, 4, 5, 6, 7, 8, 9, 10]]).1.mw.flate = false)) := by
  have h := flate_activation_spec cfgFlate (mwReset cfgFlate stInit ⟨none⟩ opText).1
    [1, 2, 3, 4, 5, 6, 7, 8] [] rfl rfl (by decide)
  have h2 := flate_activation_spec cfgFlate (mwReset cfgFlate stInit ⟨none⟩ opText).1
    [9, 9, 9] [[1, 2, 3, 4, 5, 6, 7, 8, 9, 10]] rfl rfl (by decide)
  exact ⟨rfl, rfl, by decide, h.1, h2.2⟩

/-! ### C4 -/

/-- A single trim-writer write on an open connection succeeds and emits at
most one non-final frame. -/
theorem trimWrite_trace (c : ConnCfg) (st : ConnSt) (q : List Nat)
    (hconn : st.closedFlag = false) (hs : st.sinkErr = none) :
    (trimWrite c st q).2 = none ∧
    ((trimWrite c st q).1.trace = st.trace ∨
     ∃ g, (trimWrite c st q).1.trace = st.trace ++ [Ev.frame g] ∧ g.fin = false) := by
  unfold trimWrite
  dsimp only
  by_cases he : ((st.mw.trimTail ++ q).take ((st.mw.trimTail ++ q).length - 4)).isEmpty = true
  · rw [if_pos he]
    exact ⟨rfl, Or.inl rfl⟩
  · rw [if_neg he]
    rw [mwWrite_open c
      { st with mw := { st.mw with
          trimTail := (st.mw.trimTail ++ q).drop ((st.mw.trimTail ++ q).length - 4) } }
      ((st.mw.trimTail ++ q).take ((st.mw.trimTail ++ q).length - 4)) hconn hs]
    exact ⟨rfl, Or.inr ⟨_, rfl, rfl⟩⟩

/-- C4: `msgWriter.Close` with compression active first runs the final
stateless DEFLATE flush (final=true) through the trim writer — emitting at
most one more non-final frame — then emits the FIN frame, and only
afterwards, exactly when the negotiated context-takeover option forbids
dictionary reuse for this side, resets the sliding window.  The call
succeeds, marks the writer closed, and releases the lock. -/
theorem close_compressed_spec (c : ConnCfg) (st : ConnSt)
    (hfl : st.mw.flate = true) (hcl : st.mw.closed = false)
    (hconn : st.closedFlag = false) (hs : st.sinkErr = none)
    (htr : st.trace = []) :
    (mwClose c st).2 = none ∧
    (mwClose c st).1.mw.closed = true ∧
    (mwClose c st).1.muLocked = false ∧
    (flateContextTakeover c = false → (mwClose c st).1.mw.dict.buf = none) ∧
    (∃ mid f, (mwClose c st).1.trace
        = Ev.deflateCall true [] [] :: (mid ++ [Ev.frame f]
            ++ (if flateContextTakeover c then [] else [Ev.dictReset])) ∧
      f.fin = true ∧
      (∀ e ∈ mid, ∃ g, e = Ev.frame g ∧ g.fin = false)) := by
  have htw2 := trimWrite_trace c
    { st with trace := st.trace ++ [Ev.deflateCall true [] []] }
    (c.deflate [] true []) hconn hs
  have htwp := trimWrite_preserves c
    { st with trace := st.trace ++ [Ev.deflateCall true [] []] }
    (c.deflate [] true [])
  unfold mwClose
  rw [if_neg (by simp [hcl]), if_pos hfl]
  dsimp only
  rw [htw2.1]
  dsimp only
  set T := (trimWrite c { st with trace := st.trace ++ [Ev.deflateCall true [] []] }
    (c.deflate [] true [])).1 with hT
  have hcf2 : T.closedFlag = false := htwp.2.2.2.2.2.1.trans hconn
  have hs2 : T.sinkErr = none := htwp.2.2.2.2.2.2.trans hs
  rw [writeFrame_open c { T with mw := { T.mw with closed := true } }
    T.mw.ctx true T.mw.flate T.mw.opcode [] hcf2 hs2]
  dsimp only
  split
  next hcond =>
    have htak : flateContextTakeover c = false := by
      simp only [Bool.and_eq_true, Bool.not_eq_true'] at hcond
      exact hcond.2
    refine ⟨rfl, rfl, rfl, fun _ => rfl, ?_⟩
    rcases htw2.2 with htr1 | ⟨g, htr1, hgfin⟩
    · refine ⟨[], ⟨true, T.mw.flate && (T.mw.opcode == opText || T.mw.opcode == opBinary),
        T.mw.opcode, c.client, if c.client then T.rng.headD [] else [],
        T.mw.flate, [], T.mw.ctx.deadline⟩, ?_, rfl, by simp⟩
      simp [htr1, htr, htak]
    · refine ⟨[Ev.frame g], ⟨true, T.mw.flate && (T.mw.opcode == opText || T.mw.opcode == opBinary),
        T.mw.opcode, c.client, if c.client then T.rng.headD [] else [],
        T.mw.flate, [], T.mw.ctx.deadline⟩, ?_, rfl, ?_⟩
      · simp [htr1, htr, htak]
      · intro e he
        rw [List.mem_singleton.mp he]
        exact ⟨g, rfl, hgfin⟩
  next hcond =>
    have htak : flateContextTakeover c = true := by
      have hXtrue : T.mw.flate = true := htwp.1.trans hfl
      rw [hXtrue] at hcond
      simpa using hcond
    refine ⟨rfl, rfl, rfl, fun hfalse => by simp [htak] at hfalse, ?_⟩
    rcases htw2.2 with htr1 | ⟨g, htr1, hgfin⟩
    · refine ⟨[], ⟨true, T.mw.flate && (T.mw.opcode == opText || T.mw.opcode == opBinary),
        T.mw.opcode, c.client, if c.client then T.rng.headD [] else [],
        T.mw.flate, [], T.mw.ctx.deadline⟩, ?_, rfl, by simp⟩
      simp [htr1, htr, htak]
    · refine ⟨[Ev.frame g], ⟨true, T.mw.flate && (T.mw.opcode == opText || T.mw.opcode == opBinary),
        T.mw.opcode, c.client, if c.client then T.rng.headD [] else [],
        T.mw.flate, [], T.mw.ctx.deadline⟩, ?_, rfl, ?_⟩
      · simp [htr1, htr, htak]
      · intro e he
        rw [List.mem_singleton.mp he]
        exact ⟨g, rfl, hgfin⟩

/-- Witness for C4: an open compressed writer over `cfgFlate`, whose
`server_no_context_takeover` forbids reuse, resets the window on close. -/
theorem close_compressed_spec_witness :
    stComp.mw.flate = true ∧ stComp.mw.closed = false ∧
    (mwClose cfgFlate stComp).2 = none ∧
    (mwClose cfgFlate stComp).1.mw.closed = true ∧
    (mwClose cfgFlate stComp).1.muLocked = false ∧
    (flateContextTakeover cfgFlate = false →
      (mwClose cfgFlate stComp).1.mw.dict.buf = none) ∧
    (∃ mid f, (mwClose cfgFlate stComp).1.trace
        = Ev.deflateCall true [] [] :: (mid ++ [Ev.frame f]
            ++ (if flateContextTakeover cfgFlate then [] else [Ev.dictReset])) ∧
      f.fin = true ∧
      (∀ e ∈ mid, ∃ g, e = Ev.frame g ∧ g.fin = false)) := by
  have h := close_compressed_spec cfgFlate stComp rfl rfl rfl rfl rfl
  exact ⟨rfl, rfl, h.1, h.2.1, h.2.2.1, h.2.2.2.1, h.2.2.2.2⟩

/-! ### C9 -/

/-- C9: when the FIN-frame write inside `msgWriter.Close` fails (here:
the underlying sink is failing), the `Close` call returns that error, yet
the writer is left marked closed — the closed flag is set before the FIN
frame is written — and the writer-ownership lock stays held; every later
write or close on this writer returns the closed-writer error with the
state unchanged, and a new writer cannot be begun (the lock acquisition in
`reset` can never succeed while the lock is held). -/
theorem close_finFrame_failure (c : ConnCfg) (st : ConnSt) (m : String)
    (hcl : st.mw.closed = false) (hfl : st.mw.flate = false)
    (hmu : st.muLocked = true) (hconn : st.closedFlag = false)
    (hs : st.sinkErr = some m) :
    (mwClose c st).2 = some (.ioErr m) ∧
    (mwClose c st).1.mw.closed = true ∧
    (mwClose c st).1.muLocked = true ∧
    (∀ p, mwWritePub c (mwClose c st).1 p
        = (0, (mwClose c st).1, some .useClosedWriter)) ∧
    mwClose c (mwClose c st).1 = ((mwClose c st).1, some .useClosedWriter) ∧
    (∀ ctx typ, mwReset c (mwClose c st).1 ctx typ
        = ((mwClose c st).1, some .wouldBlock)) := by
  have hrun : mwClose c st = ({ st with
      mw := { st.mw with closed := true },
      rng := if c.client then st.rng.tail else st.rng }, some (.ioErr m)) := by
    cases hcli : c.client <;> simp [mwClose, writeFrame, hcl, hfl, hconn, hs, hcli]
  rw [hrun]
  refine ⟨rfl, rfl, hmu, ?_, ?_, ?_⟩
  · intro p
    simp [mwWritePub]
  · simp [mwClose]
  · intro ctx typ
    simp [mwReset, hconn, hmu]

/-- Witness for C9 at a concrete writer over a broken sink. -/
theorem close_finFrame_failure_witness :
    ({ stInit with muLocked := true, sinkErr := some "broken pipe" } : ConnSt).mw.closed = false ∧
    (mwClose cfgPlain { stInit with muLocked := true, sinkErr := some "broken pipe" }).2
      = some (.ioErr "broken pipe") ∧
    (mwClose cfgPlain { stInit with muLocked := true, sinkErr := some "broken pipe" }).1.mw.closed = true ∧
    (mwClose cfgPlain { stInit with muLocked := true, sinkErr := some "broken pipe" }).1.muLocked = true ∧
    (∀ ctx typ, (mwReset cfgPlain
        (mwClose cfgPlain { stInit with muLocked := true, sinkErr := some "broken pipe" }).1 ctx typ).2
      = some .wouldBlock) := by
  have h := close_finFrame_failure cfgPlain
    { stInit with muLocked := true, sinkErr := some "broken pipe" }
    "broken pipe" rfl rfl rfl rfl rfl
  exact ⟨rfl, h.1, h.2.1, h.2.2.1, fun ctx typ => by rw [h.2.2.2.2.2 ctx typ]⟩

/-! ### Masking lemmas -/

/-- Masking preserves length. -/
theorem maskSeq_length (key p : List Nat) : (maskSeq key p).1.length = p.length := by
  induction p generalizing key with
  | nil => simp [maskSeq]
  | cons b bs ih => simp [maskSeq, ih]

/-- Masking a concatenation equals masking the first part and continuing
the second part with the returned key rotation. -/
theorem maskSeq_append (key p q : List Nat) :
    maskSeq key (p ++ q)
      = ((maskSeq key p).1 ++ (maskSeq (maskSeq key p).2 q).1,
         (maskSeq (maskSeq key p).2 q).2) := by
  induction p generalizing key with
  | nil => simp [maskSeq]
  | cons b bs ih => simp [maskSeq, ih]

/-- The payload loop of `writeFramePayload`, for any buffer of positive
capacity and enough fuel, puts on the wire (flushed bytes followed by the
still-buffered bytes) exactly the one-pass masking of the payload, and
ends with the one-pass key rotation. -/
theorem wfpLoop_spec (fuel : Nat) :
    ∀ (bw : BufWriter) (key p : List Nat), 1 ≤ bw.bcap → bw.buf.length ≤ bw.bcap →
      p.length ≤ fuel →
      (wfpLoop fuel bw key p).1.out ++ (wfpLoop fuel bw key p).1.buf
        = bw.out ++ bw.buf ++ (maskSeq key p).1 ∧
      (wfpLoop fuel bw key p).2 = (maskSeq key p).2 := by
  induction fuel with
  | zero =>
    intro bw key p _ _ hfuel
    cases p with
    | nil => simp [wfpLoop, maskSeq]
    | cons b bs => simp at hfuel
  | succ fuel ih =>
    intro bw key p hcap hbuf hfuel
    cases p with
    | nil => simp [wfpLoop, maskSeq]
    | cons b bs =>
      simp only [wfpLoop]
      set bw1 := if bw.avail == 0 then bw.flush else bw with hbw1
      have hbcap1 : bw1.bcap = bw.bcap := by
        rw [hbw1]; split <;> rfl
      have hout1 : ∀ rest : List Nat,
          bw1.out ++ (bw1.buf ++ rest) = bw.out ++ (bw.buf ++ rest) := by
        intro rest
        rw [hbw1]; split
        · simp [BufWriter.flush]
        · rfl
      have hbuf1 : bw1.buf.length ≤ bw1.bcap := by
        rw [hbw1]; split
        · simp [BufWriter.flush]
        · exact hbuf
      have havail1 : 1 ≤ bw1.avail := by
        rw [hbw1]; split
        · simpa [BufWriter.flush, BufWriter.avail] using hcap
        · next hne =>
          have h0 : ¬ bw.avail = 0 := by simpa using hne
          omega
      set j := min (b :: bs).length bw1.avail with hj
      have hj1 : 1 ≤ j := by
        have hlen : 1 ≤ (b :: bs).length := by simp
        exact le_min hlen havail1
      have hjle : j ≤ bw1.avail := by
        rw [hj]; exact Nat.min_le_right _ _
      have hjlen : j ≤ (b :: bs).length := by
        rw [hj]; exact Nat.min_le_left _ _
      have hsplit := maskSeq_append key ((b :: bs).take j) ((b :: bs).drop j)
      rw [List.take_append_drop] at hsplit
      set m := maskSeq key ((b :: bs).take j) with hm
      have hml : m.1.length = j := by
        rw [hm, maskSeq_length, List.length_take]
        exact Nat.min_eq_left hjlen
      have h1 : (1 : Nat) ≤ bw1.bcap := by rw [hbcap1]; exact hcap
      have h2 : (bw1.buf ++ m.1).length ≤ bw1.bcap := by
        rw [List.length_append, hml]
        have hav : j ≤ bw1.bcap - bw1.buf.length := hjle
        omega
      have h3 : ((b :: bs).drop j).length ≤ fuel := by
        rw [List.length_drop]
        have hlen : (b :: bs).length ≤ fuel + 1 := hfuel
        omega
      obtain ⟨ihout, ihkey⟩ :=
        ih { bw1 with buf := bw1.buf ++ m.1 } m.2 ((b :: bs).drop j) h1 h2 h3
      constructor
      · rw [ihout, hsplit]
        simp [List.append_assoc, hout1]
      · rw [ihkey, hsplit]

/-! ### C6 -/

/-- C6: every frame emitted by a client-role connection carries the masked
flag and consumes the next four-byte key of the secure source before the
frame is written; and the chunked, flush-interleaved masking loop of
`writeFramePayload` places on the wire exactly the payload XOR'd cyclically
with the key in one pass, ending with the one-pass key rotation. -/
theorem client_masking_spec (c : ConnCfg) (st : ConnSt) (ctx : Ctx)
    (fin flate : Bool) (opc : Nat) (p : List Nat)
    (bw : BufWriter) (key q : List Nat)
    (hcli : c.client = true) (hconn : st.closedFlag = false)
    (hs : st.sinkErr = none) (hcap : 1 ≤ bw.bcap)
    (hbuf : bw.buf.length ≤ bw.bcap) :
    (∃ f, (writeFrame c st ctx fin flate opc p).1.trace = st.trace ++ [.frame f] ∧
      f.masked = true ∧ f.maskKey = st.rng.headD [] ∧
      (writeFrame c st ctx fin flate opc p).1.rng = st.rng.tail) ∧
    ((writeFramePayloadMasked bw key q).1.out ++ (writeFramePayloadMasked bw key q).1.buf
        = bw.out ++ bw.buf ++ (maskSeq key q).1 ∧
     (writeFramePayloadMasked bw key q).2 = (maskSeq key q).2) := by
  constructor
  · rw [writeFrame_open c st ctx fin flate opc p hconn hs]
    refine ⟨⟨fin, flate && (opc == opText || opc == opBinary), opc, true,
      st.rng.headD [], flate, p, ctx.deadline⟩, by simp [hcli], rfl, rfl,
      by simp [hcli]⟩
  · exact wfpLoop_spec q.length bw key q hcap hbuf le_rfl

/-- Witness for C6 at a concrete client frame and a concrete masked
payload crossing two buffer flushes (capacity 2, five payload bytes). -/
theorem client_masking_spec_witness :
    cfgClient.client = true ∧ stInit.closedFlag = false ∧ stInit.sinkErr = none ∧
    (1 : Nat) ≤ (⟨2, [], []⟩ : BufWriter).bcap ∧
    (∃ f, (writeFrame cfgClient stInit ⟨none⟩ true false opText [5, 6]).1.trace
        = stInit.trace ++ [.frame f] ∧
      f.masked = true ∧ f.maskKey = stInit.rng.headD [] ∧
      (writeFrame cfgClient stInit ⟨none⟩ true false opText [5, 6]).1.rng = stInit.rng.tail) ∧
    ((writeFramePayloadMasked ⟨2, [], []⟩ [1, 2, 3, 4] [10, 20, 30, 40, 50]).1.out
        ++ (writeFramePayloadMasked ⟨2, [], []⟩ [1, 2, 3, 4] [10, 20, 30, 40, 50]).1.buf
      = ([] : List Nat) ++ ([] : List Nat) ++ (maskSeq [1, 2, 3, 4] [10, 20, 30, 40, 50]).1 ∧
     (writeFramePayloadMasked ⟨2, [], []⟩ [1, 2, 3, 4] [10, 20, 30, 40, 50]).2
      = (maskSeq [1, 2, 3, 4] [10, 20, 30, 40, 50]).2) := by
  have h := client_masking_spec cfgClient stInit ⟨none⟩ true false opText [5, 6]
    ⟨2, [], []⟩ [1, 2, 3, 4] [10, 20, 30, 40, 50] rfl rfl rfl (by decide) (by decide)
  exact ⟨rfl, rfl, rfl, by decide, h.1, h.2⟩

/-! ### C1 -/

/-- C1: the one-shot `Conn.write` is equivalent to the streaming path.
With compression negotiated it is literally the composition writer-begin,
write, close.  Without compression it emits exactly one frame with FIN=1,
the message-type opcode and the whole payload, never flips the writer's
per-frame opcode state, and the peer reassembles the same message (type
and payload) from it as from the streaming path's two frames. -/
theorem oneShot_equiv_streaming (c : ConnCfg) (st : ConnSt) (ctx : Ctx)
    (typ : Nat) (p : List Nat)
    (hmu : st.muLocked = false) (hconn : st.closedFlag = false)
    (hs : st.sinkErr = none) (htr : st.trace = []) :
    (c.flateEnabled = true →
      connWrite c st ctx typ p = streamSingle c st ctx typ p) ∧
    (c.flateEnabled = false →
      ∃ k,
        (connWrite c st ctx typ p).2.1.trace
          = [.frame ⟨true, false, typ, c.client, k, false, p, ctx.deadline⟩] ∧
        (connWrite c st ctx typ p).2.2 = none ∧
        (connWrite c st ctx typ p).2.1.mw.opcode = typ ∧
        (streamSingle c st ctx typ p).2.2 = none ∧
        assembleType (framesOf (streamSingle c st ctx typ p).2.1.trace) = some typ ∧
        assemblePayload (framesOf (streamSingle c st ctx typ p).2.1.trace) = p ∧
        assembleType (framesOf (connWrite c st ctx typ p).2.1.trace) = some typ ∧
        assemblePayload (framesOf (connWrite c st ctx typ p).2.1.trace) = p) := by
  constructor
  · intro hen
    rw [connWrite, streamSingle, mwReset_open c st ctx typ hconn hmu]
    simp [hen]
  · intro hen
    refine ⟨if c.client then st.rng.headD [] else [], ?_⟩
    cases hcli : c.client <;>
      simp [connWrite, streamSingle, mwReset, mwWritePub, mwWrite, mwClose,
        writeFrame, framesOf, assembleType, assemblePayload,
        hen, hmu, hconn, hs, hcli, htr]

/-! ### C3: helpers -/

/-- Appending on the right does not change a nonempty list's head. -/
theorem head?_append_left {α : Type} (l1 l2 : List α) (h : l1 ≠ []) :
    (l1 ++ l2).head? = l1.head? := by
  cases l1 with
  | nil => exact absurd rfl h
  | cons a l => rfl

/-- The tail of an append with a nonempty left part. -/
theorem tail_append_left {α : Type} (l1 l2 : List α) (h : l1 ≠ []) :
    (l1 ++ l2).tail = l1.tail ++ l2 := by
  cases l1 with
  | nil => exact absurd rfl h
  | cons a l => rfl

/-- `framesOf` distributes over append. -/
theorem framesOf_append (t l : List Ev) :
    framesOf (t ++ l) = framesOf t ++ framesOf l := by
  simp [framesOf]

/-- A frame event appends a frame. -/
theorem framesOf_frame (t : List Ev) (f : Frame) :
    framesOf (t ++ [Ev.frame f]) = framesOf t ++ [f] := by
  simp [framesOf]

/-- A DEFLATE-call event adds no frame. -/
theorem framesOf_deflateCall (t : List Ev) (b : Bool) (i d : List Nat) :
    framesOf (t ++ [Ev.deflateCall b i d]) = framesOf t := by
  simp [framesOf]

/-- A window-reset event adds no frame. -/
theorem framesOf_dictReset (t : List Ev) :
    framesOf (t ++ [Ev.dictReset]) = framesOf t := by
  simp [framesOf]

/-- A continuation frame obeying the RSV1 discipline has RSV1 clear. -/
theorem rsv1Ok_cont (F : Frame) (hok : rsv1Ok F)
    (hop : F.opcode = opContinuation) : F.rsv1 = false := by
  rw [rsv1Ok] at hok
  rw [hok, hop]
  simp [opContinuation, opText, opBinary]

/-- Appending a well-formed continuation frame keeps the message shape. -/
theorem msgFrames_snoc_cont (typ : Nat) (fs : List Frame) (f : Frame)
    (hne : fs ≠ []) (hmf : msgFrames typ fs)
    (hop : f.opcode = opContinuation) (hrsv : f.rsv1 = false)
    (hok : rsv1Ok f) : msgFrames typ (fs ++ [f]) := by
  obtain ⟨h1, h2, h3⟩ := hmf
  refine ⟨?_, ?_, ?_⟩
  · intro g hg
    rcases List.mem_append.mp hg with hg | hg
    · exact h1 g hg
    · rw [List.mem_singleton.mp hg]
      exact hok
  · intro g hg
    rw [head?_append_left fs [f] hne] at hg
    exact h2 g hg
  · intro g hg
    rw [tail_append_left fs [f] hne] at hg
    rcases List.mem_append.mp hg with hg | hg
    · exact h3 g hg
    · rw [List.mem_singleton.mp hg]
      exact ⟨hop, hrsv⟩

/-- Emitting a frame carrying the writer's current opcode extends the
message shape: it is the first frame (carrying the type) or a
continuation frame. -/
theorem wInv_extend (typ : Nat) (fs : List Frame) (F : Frame) (curOp : Nat)
    (h : (curOp = typ ∧ fs = []) ∨
         (curOp = opContinuation ∧ fs ≠ [] ∧ msgFrames typ fs))
    (hFop : F.opcode = curOp) (hok : rsv1Ok F) :
    msgFrames typ (fs ++ [F]) := by
  rcases h with ⟨hop, rfl⟩ | ⟨hop, hne, hmf⟩
  · refine ⟨?_, ?_, ?_⟩
    · intro g hg
      have hg2 : g = F := by simpa using hg
      rw [hg2]
      exact hok
    · intro g hg
      simp at hg
      rw [← hg, hFop, hop]
    · intro g hg
      simp at hg
  · exact msgFrames_snoc_cont typ fs F hne hmf (hFop.trans hop)
      (rsv1Ok_cont F hok (hFop.trans hop)) hok

/-- The writer invariant yields the message shape of the emitted frames. -/
theorem wInv_msgFrames (typ : Nat) (st : ConnSt) (h : wInv typ st) :
    msgFrames typ (framesOf st.trace) := by
  rcases h with ⟨-, hfr⟩ | ⟨-, -, hmf⟩
  · rw [hfr]
    refine ⟨?_, ?_, ?_⟩
    · intro g hg
      exact absurd hg (List.not_mem_nil g)
    · intro g hg
      simp at hg
    · intro g hg
      simp at hg
  · exact hmf

/-- `writeFrame` either fails leaving the trace unchanged, or succeeds
appending exactly the frame determined by its arguments. -/
theorem writeFrame_cases (c : ConnCfg) (st : ConnSt) (ctx : Ctx)
    (fin flate : Bool) (opc : Nat) (p : List Nat) :
    ((writeFrame c st ctx fin flate opc p).2 ≠ none ∧
     (writeFrame c st ctx fin flate opc p).1.trace = st.trace) ∨
    ((writeFrame c st ctx fin flate opc p).2 = none ∧
     (writeFrame c st ctx fin flate opc p).1.trace
       = st.trace ++ [Ev.frame ⟨fin, flate && (opc == opText || opc == opBinary),
           opc, c.client, if c.client then st.rng.headD [] else [], flate, p,
           ctx.deadline⟩]) := by
  unfold writeFrame
  by_cases hcf : st.closedFlag = true
  · rw [if_pos hcf]
    exact Or.inl ⟨by simp, rfl⟩
  · rw [if_neg hcf]
    dsimp only
    cases hcli : c.client <;> cases hse : st.sinkErr <;> simp [hcli, hse]

/-- `msgWriter.write` preserves the writer invariant. -/
theorem mwWrite_wInv (c : ConnCfg) (st : ConnSt) (p : List Nat) (typ : Nat)
    (h : wInv typ st) : wInv typ (mwWrite c st p).1 := by
  by_cases hcf : st.closedFlag = true
  · have heq : mwWrite c st p = (st, some (.connClosed st.closeCause)) := by
      simp [mwWrite, writeFrame, hcf]
    rw [heq]
    exact h
  · have hcf' : st.closedFlag = false := by simpa using hcf
    cases hse : st.sinkErr with
    | some m =>
      have heq : (mwWrite c st p).1
          = if c.client then { st with rng := st.rng.tail } else st := by
        cases hcli : c.client <;> simp [mwWrite, writeFrame, hcf', hse, hcli]
      rw [heq]
      cases hcli : c.client
      · rw [if_neg (by simp)]
        exact h
      · rw [if_pos rfl]
        exact h
    | none =>
      have hop2 : (mwWrite c st p).1.mw.opcode = opContinuation := by
        rw [mwWrite_open c st p hcf' hse]
      have htr2 : (mwWrite c st p).1.trace = st.trace ++ [Ev.frame ⟨false,
          st.mw.flate && (st.mw.opcode == opText || st.mw.opcode == opBinary),
          st.mw.opcode, c.client, if c.client then st.rng.headD [] else [],
          st.mw.flate, p, st.mw.ctx.deadline⟩] := by
        rw [mwWrite_open c st p hcf' hse]
      right
      refine ⟨hop2, ?_, ?_⟩
      · rw [htr2, framesOf_frame]
        simp
      · rw [htr2, framesOf_frame]
        exact wInv_extend typ _ _ _ h rfl rfl

/-- Witness for C1 at a concrete no-compression write and at a concrete
compression-enabled write. -/
theorem oneShot_equiv_streaming_witness :
    stInit.muLocked = false ∧ stInit.closedFlag = false ∧
    stInit.sinkErr = none ∧ stInit.trace = [] ∧
    (cfgPlain.flateEnabled = false →
      ∃ k,
        (connWrite cfgPlain stInit ⟨none⟩ opText [72, 105]).2.1.trace
          = [.frame ⟨true, false, opText, cfgPlain.client, k, false, [72, 105], Ctx.deadline ⟨none⟩⟩] ∧
        (connWrite cfgPlain stInit ⟨none⟩ opText [72, 105]).2.2 = none ∧
        (connWrite cfgPlain stInit ⟨none⟩ opText [72, 105]).2.1.mw.opcode = opText ∧
        (streamSingle cfgPlain stInit ⟨none⟩ opText [72, 105]).2.2 = none ∧
        assembleType (framesOf (streamSingle cfgPlain stInit ⟨none⟩ opText [72, 105]).2.1.trace) = some opText ∧
        assemblePayload (framesOf (streamSingle cfgPlain stInit ⟨none⟩ opText [72, 105]).2.1.trace) = [72, 105] ∧
        assembleType (framesOf (connWrite cfgPlain stInit ⟨none⟩ opText [72, 105]).2.1.trace) = some opText ∧
        assemblePayload (framesOf (connWrite cfgPlain stInit ⟨none⟩ opText [72, 105]).2.1.trace) = [72, 105]) ∧
    (cfgFlate.flateEnabled = true →
      connWrite cfgFlate stInit ⟨none⟩ opText [72, 105]
        = streamSingle cfgFlate stInit ⟨none⟩ opText [72, 105]) :=
  ⟨rfl, rfl, rfl, rfl,
    (oneShot_equiv_streaming cfgPlain stInit ⟨none⟩ opText [72, 105] rfl rfl rfl rfl).2,
    (oneShot_equiv_streaming cfgFlate stInit ⟨none⟩ opText [72, 105] rfl rfl rfl rfl).1⟩

/-- The trim writer preserves the writer invariant. -/
theorem trimWrite_wInv (c : ConnCfg) (st : ConnSt) (q : List Nat) (typ : Nat)
    (h : wInv typ st) : wInv typ (trimWrite c st q).1 := by
  unfold trimWrite
  dsimp only
  split
  · exact h
  · exact mwWrite_wInv c _ _ typ h

/-- `ensureFlate` preserves the writer invariant. -/
theorem ensureFlate_wInv (st : ConnSt) (typ : Nat) (h : wInv typ st) :
    wInv typ (ensureFlate st) := by
  have h1 := ensureFlate_fields st
  unfold wInv at h ⊢
  rw [h1.2.2.2.2.1, h1.2.2.2.2.2.2]
  exact h

/-- `msgWriter.Write` preserves the writer invariant. -/
theorem mwWritePub_wInv (c : ConnCfg) (st : ConnSt) (p : List Nat) (typ : Nat)
    (h : wInv typ st) : wInv typ (mwWritePub c st p).2.1 := by
  by_cases hcl : st.mw.closed = true
  · have heq : mwWritePub c st p = (0, st, some .useClosedWriter) := by
      simp [mwWritePub, hcl]
    rw [heq]
    exact h
  · unfold mwWritePub
    rw [if_neg hcl]
    dsimp only
    by_cases hg : (c.flateEnabled && (!(st.mw.opcode == opContinuation)
        && decide (c.flateThreshold ≤ p.length))) = true
    · rw [if_pos hg, if_pos (ensureFlate_fields st).1]
      have hW2 : wInv typ { ensureFlate st with
          trace := (ensureFlate st).trace
            ++ [Ev.deflateCall false p (ensureFlate st).mw.dict.view] } := by
        have hW1 : wInv typ (ensureFlate st) := ensureFlate_wInv st typ h
        unfold wInv at hW1 ⊢
        dsimp only
        rw [framesOf_deflateCall]
        exact hW1
      exact trimWrite_wInv c { ensureFlate st with
        trace := (ensureFlate st).trace
          ++ [Ev.deflateCall false p (ensureFlate st).mw.dict.view] }
        (c.deflate p false (ensureFlate st).mw.dict.view) typ hW2
    · rw [if_neg hg]
      by_cases hfl : st.mw.flate = true
      · rw [if_pos hfl]
        have hW2 : wInv typ { st with
            trace := st.trace ++ [Ev.deflateCall false p st.mw.dict.view] } := by
          unfold wInv at h ⊢
          dsimp only
          rw [framesOf_deflateCall]
          exact h
        exact trimWrite_wInv c { st with
          trace := st.trace ++ [Ev.deflateCall false p st.mw.dict.view] }
          (c.deflate p false st.mw.dict.view) typ hW2
      · rw [if_neg hfl]
        have hW := mwWrite_wInv c st p typ h
        cases he : (mwWrite c st p).2 with
        | none => exact hW
        | some e => exact hW

/-- A whole sequence of writes preserves the writer invariant. -/
theorem runWrites_wInv (c : ConnCfg) (ps : List (List Nat)) :
    ∀ (st : ConnSt) (typ : Nat), wInv typ st → wInv typ (runWrites c st ps).1 := by
  induction ps with
  | nil =>
    intro st typ h
    exact h
  | cons p ps ih =>
    intro st typ h
    have hW := mwWritePub_wInv c st p typ h
    unfold runWrites
    dsimp only
    cases he : (mwWritePub c st p).2.2 with
    | none => exact ih _ typ hW
    | some e => exact hW

/-- `msgWriter.Close` leaves the message's frames in the message shape:
the FIN frame carries the current opcode (the type when it is the only
frame, continuation otherwise), and the flush/dict-reset events add no
frames. -/
theorem mwClose_msgFrames (c : ConnCfg) (st : ConnSt) (typ : Nat)
    (h : wInv typ st) : msgFrames typ (framesOf (mwClose c st).1.trace) := by
  by_cases hcl : st.mw.closed = true
  · have heq : mwClose c st = (st, some .useClosedWriter) := by
      simp [mwClose, hcl]
    rw [heq]
    exact wInv_msgFrames typ st h
  · unfold mwClose
    rw [if_neg hcl]
    dsimp only
    by_cases hfl : st.mw.flate = true
    · rw [if_pos hfl]
      have hW0 : wInv typ { st with
          trace := st.trace ++ [Ev.deflateCall true [] []] } := by
        unfold wInv at h ⊢
        dsimp only
        rw [framesOf_deflateCall]
        exact h
      have hW1 : wInv typ (trimWrite c
          { st with trace := st.trace ++ [Ev.deflateCall true [] []] }
          (c.deflate [] true [])).1 :=
        trimWrite_wInv c _ _ typ hW0
      cases hstep : (trimWrite c
          { st with trace := st.trace ++ [Ev.deflateCall true [] []] }
          (c.deflate [] true [])).2 with
      | some e => exact wInv_msgFrames typ _ hW1
      | none =>
        set T := (trimWrite c
          { st with trace := st.trace ++ [Ev.deflateCall true [] []] }
          (c.deflate [] true [])).1 with hT
        have hwc := writeFrame_cases c { T with mw := { T.mw with closed := true } }
          T.mw.ctx true T.mw.flate T.mw.opcode []
        cases hr : (writeFrame c { T with mw := { T.mw with closed := true } }
            T.mw.ctx true T.mw.flate T.mw.opcode []).2 with
        | some e =>
          rcases hwc with ⟨-, htr2⟩ | ⟨hok2, -⟩
          · rw [htr2]
            exact wInv_msgFrames typ _ hW1
          · rw [hok2] at hr
            exact Option.noConfusion hr
        | none =>
          dsimp only
          rcases hwc with ⟨hne2, -⟩ | ⟨-, htr2⟩
          · exact absurd hr hne2
          · split
            · show msgFrames typ (framesOf
                ((writeFrame c { T with mw := { T.mw with closed := true } }
                  T.mw.ctx true T.mw.flate T.mw.opcode []).1.trace ++ [Ev.dictReset]))
              rw [framesOf_dictReset, htr2, framesOf_frame]
              exact wInv_extend typ _ _ _ hW1 rfl rfl
            · show msgFrames typ (framesOf
                (writeFrame c { T with mw := { T.mw with closed := true } }
                  T.mw.ctx true T.mw.flate T.mw.opcode []).1.trace)
              rw [htr2, framesOf_frame]
              exact wInv_extend typ _ _ _ hW1 rfl rfl
    · rw [if_neg hfl]
      dsimp only
      have hwc := writeFrame_cases c { st with mw := { st.mw with closed := true } }
        st.mw.ctx true st.mw.flate st.mw.opcode []
      cases hr : (writeFrame c { st with mw := { st.mw with closed := true } }
          st.mw.ctx true st.mw.flate st.mw.opcode []).2 with
      | some e =>
        rcases hwc with ⟨-, htr2⟩ | ⟨hok2, -⟩
        · rw [htr2]
          exact wInv_msgFrames typ _ h
        · rw [hok2] at hr
          exact Option.noConfusion hr
      | none =>
        dsimp only
        rcases hwc with ⟨hne2, -⟩ | ⟨-, htr2⟩
        · exact absurd hr hne2
        · split
          · show msgFrames typ (framesOf
              ((writeFrame c { st with mw := { st.mw with closed := true } }
                st.mw.ctx true st.mw.flate st.mw.opcode []).1.trace ++ [Ev.dictReset]))
            rw [framesOf_dictReset, htr2, framesOf_frame]
            exact wInv_extend typ _ _ _ h rfl rfl
          · show msgFrames typ (framesOf
              (writeFrame c { st with mw := { st.mw with closed := true } }
                st.mw.ctx true st.mw.flate st.mw.opcode []).1.trace)
            rw [htr2, framesOf_frame]
            exact wInv_extend typ _ _ _ h rfl rfl

/-- Indexed reading of the message shape: frames after the first carry the
continuation opcode with RSV1 clear, and an RSV1 bit can appear only on
the first frame, which is then a compressed text or binary frame. -/
theorem msgFrames_get (typ : Nat) (fs : List Frame) (h : msgFrames typ fs) :
    ∀ i (hi : i < fs.length),
      (1 ≤ i → (fs.get ⟨i, hi⟩).opcode = opContinuation ∧
               (fs.get ⟨i, hi⟩).rsv1 = false) ∧
      ((fs.get ⟨i, hi⟩).rsv1 = true →
        i = 0 ∧ (fs.get ⟨i, hi⟩).flateArg = true ∧
          ((fs.get ⟨i, hi⟩).opcode = opText ∨
           (fs.get ⟨i, hi⟩).opcode = opBinary)) := by
  obtain ⟨h1, h2, h3⟩ := h
  intro i hi
  cases fs with
  | nil => exact absurd hi (by simp)
  | cons f0 rest =>
    cases i with
    | zero =>
      refine ⟨fun h10 => absurd h10 (by omega), fun hrsv => ⟨rfl, ?_, ?_⟩⟩
      all_goals
        have hok := h1 f0 (by simp)
        rw [rsv1Ok] at hok
        have hco : (f0.flateArg && (f0.opcode == opText || f0.opcode == opBinary))
            = true := by
          rw [← hok]
          exact hrsv
        simp only [Bool.and_eq_true, Bool.or_eq_true, beq_iff_eq] at hco
      · exact hco.1
      · exact hco.2
    | succ j =>
      have hj : j < rest.length := by
        simp only [List.length_cons] at hi
        omega
      have hget : (f0 :: rest).get ⟨j + 1, hi⟩ = rest.get ⟨j, hj⟩ := rfl
      have hmem : (f0 :: rest).get ⟨j + 1, hi⟩ ∈ rest := by
        rw [hget]
        exact rest.get_mem _ _
      have h3' := h3 _ hmem
      refine ⟨fun _ => h3', fun hrsv => ?_⟩
      rw [h3'.2] at hrsv
      exact absurd hrsv (by simp)

/-- C3: running a message (begin, any write sequence, close) yields frames
in the message shape: once a frame is out the writer's opcode field is
continuation; every frame after the first carries the continuation opcode
with RSV1=0; RSV1=1 can appear only on the first frame, which then is a
text or binary frame emitted with the compression flag set. -/
theorem message_frame_invariants (c : ConnCfg) (st : ConnSt) (ctx : Ctx)
    (typ : Nat) (ps : List (List Nat))
    (htr : st.trace = []) (hmu : st.muLocked = false)
    (hconn : st.closedFlag = false) :
    (framesOf (midMsg c st ctx typ ps).trace ≠ [] →
      (midMsg c st ctx typ ps).mw.opcode = opContinuation) ∧
    msgFrames typ (framesOf (midMsg c st ctx typ ps).trace) ∧
    msgFrames typ (framesOf (runMsg c st ctx typ ps).trace) ∧
    (∀ i (hi : i < (framesOf (runMsg c st ctx typ ps).trace).length),
      (1 ≤ i →
        ((framesOf (runMsg c st ctx typ ps).trace).get ⟨i, hi⟩).opcode
          = opContinuation ∧
        ((framesOf (runMsg c st ctx typ ps).trace).get ⟨i, hi⟩).rsv1 = false) ∧
      (((framesOf (runMsg c st ctx typ ps).trace).get ⟨i, hi⟩).rsv1 = true →
        i = 0 ∧
        ((framesOf (runMsg c st ctx typ ps).trace).get ⟨i, hi⟩).flateArg = true ∧
        (((framesOf (runMsg c st ctx typ ps).trace).get ⟨i, hi⟩).opcode = opText ∨
         ((framesOf (runMsg c st ctx typ ps).trace).get ⟨i, hi⟩).opcode
           = opBinary))) := by
  have h0 : wInv typ (mwReset c st ctx typ).1 := by
    rw [mwReset_open c st ctx typ hconn hmu]
    unfold wInv
    left
    refine ⟨rfl, ?_⟩
    simp [htr, framesOf]
  have hmid : wInv typ (midMsg c st ctx typ ps) := runWrites_wInv c ps _ typ h0
  refine ⟨?_, wInv_msgFrames typ _ hmid, mwClose_msgFrames c _ typ hmid,
    msgFrames_get typ _ (mwClose_msgFrames c _ typ hmid)⟩
  intro hne
  rcases hmid with ⟨-, hfr⟩ | ⟨hop, -, -⟩
  · exact absurd hfr hne
  · exact hop

/-- Witness for C3 at a concrete compressed run: an eight-byte first write
(activating compression over `cfgFlate`) followed by a two-byte write. -/
theorem message_frame_invariants_witness :
    stInit.trace = [] ∧ stInit.muLocked = false ∧ stInit.closedFlag = false ∧
    ((framesOf (midMsg cfgFlate stInit ⟨none⟩ opText
        [[1, 2, 3, 4, 5, 6, 7, 8], [9, 9]]).trace ≠ [] →
      (midMsg cfgFlate stInit ⟨none⟩ opText
        [[1, 2, 3, 4, 5, 6, 7, 8], [9, 9]]).mw.opcode = opContinuation) ∧
    msgFrames opText (framesOf (midMsg cfgFlate stInit ⟨none⟩ opText
      [[1, 2, 3, 4, 5, 6, 7, 8], [9, 9]]).trace) ∧
    msgFrames opText (framesOf (runMsg cfgFlate stInit ⟨none⟩ opText
      [[1, 2, 3, 4, 5, 6, 7, 8], [9, 9]]).trace) ∧
    (∀ i (hi : i < (framesOf (runMsg cfgFlate stInit ⟨none⟩ opText
        [[1, 2, 3, 4, 5, 6, 7, 8], [9, 9]]).trace).length),
      (1 ≤ i →
        ((framesOf (runMsg cfgFlate stInit ⟨none⟩ opText
          [[1, 2, 3, 4, 5, 6, 7, 8], [9, 9]]).trace).get ⟨i, hi⟩).opcode
          = opContinuation ∧
        ((framesOf (runMsg cfgFlate stInit ⟨none⟩ opText
          [[1, 2, 3, 4, 5, 6, 7, 8], [9, 9]]).trace).get ⟨i, hi⟩).rsv1 = false) ∧
      (((framesOf (runMsg cfgFlate stInit ⟨none⟩ opText
          [[1, 2, 3, 4, 5, 6, 7, 8], [9, 9]]).trace).get ⟨i, hi⟩).rsv1 = true →
        i = 0 ∧
        ((framesOf (runMsg cfgFlate stInit ⟨none⟩ opText
          [[1, 2, 3, 4, 5, 6, 7, 8], [9, 9]]).trace).get ⟨i, hi⟩).flateArg = true ∧
        (((framesOf (runMsg cfgFlate stInit ⟨none⟩ opText
          [[1, 2, 3, 4, 5, 6, 7, 8], [9, 9]]).trace).get ⟨i, hi⟩).opcode = opText ∨
         ((framesOf (runMsg cfgFlate stInit ⟨none⟩ opText
          [[1, 2, 3, 4, 5, 6, 7, 8], [9, 9]]).trace).get ⟨i, hi⟩).opcode
           = opBinary)))) :=
  ⟨rfl, rfl, rfl,
    message_frame_invariants cfgFlate stInit ⟨none⟩ opText
      [[1, 2, 3, 4, 5, 6, 7, 8], [9, 9]] rfl rfl rfl⟩

end WS
